import Mathlib

/-!
Verification of the voice-control node (`voice_control_node.py`).

This file gives a shallow embedding of the program's core components and
proves the specification's claims about them:

* `CommandDispatcher` — the substring-matching command table walk of
  `VoiceControlNode.handle_final_result`;
* `RecordingController` — the space-key toggle state machine of
  `VoiceControlNode.on_key_press`;
* `AudioDeviceManager` — `resample_audio` (downmix / rate-conversion /
  requantize pipeline, with the external `librosa.resample` call abstracted
  as an oracle returning `Option`, `none` modelling a raised exception) and
  `close`;
* `RecognitionClient` — the three-frame websocket protocol and receive loop
  of `VoiceControlNode.process_audio`, plus the signed-URL construction of
  `Ws_Param.create_url` with a full executable SHA-256 / HMAC / base64 /
  percent-encoding stack.

Machine integers are modelled as `Nat`/`Int` with explicit `% 2^32` where
the SHA-256 arithmetic wraps; Python byte strings are `List ℕ`; Python
floats in the audio path are modelled exactly as `ℚ`.
-/

namespace VoiceControl

/-! ## CommandDispatcher

Source: `VoiceControlNode.commands` (lines 168-173) and the match loop in
`VoiceControlNode.handle_final_result` (lines 276-297).  Python's `cmd in
text` is substring containment, embedded on `List Char`. -/

/-- Boolean test that `needle` is an initial segment of `hay`. -/
def leadMatch : List Char → List Char → Bool
  | [], _ => true
  | _ :: _, [] => false
  | a :: as, b :: bs => a == b && leadMatch as bs

/-- Boolean substring containment (Python's `needle in haystack`). -/
def containsSub (needle : List Char) : List Char → Bool
  | [] => leadMatch needle []
  | b :: bs => leadMatch needle (b :: bs) || containsSub needle bs

/-- String-level substring containment. -/
def substrB (needle hay : String) : Bool :=
  containsSub needle.data hay.data

/-- The exact value of the source's float literal `0.2`, in lowest terms
(kept in `Rat` constructor form so that equality is kernel-decidable). -/
def q02 : ℚ := ⟨1, 5, by decide, by decide⟩

/-- The exact value of the float literal `-0.2`. -/
def qm02 : ℚ := ⟨-1, 5, by decide, by decide⟩

/-- The exact value of the float literal `0.5`. -/
def q05 : ℚ := ⟨1, 2, by decide, by decide⟩

/-- The exact value of the float literal `-0.5`. -/
def qm05 : ℚ := ⟨-1, 2, by decide, by decide⟩

/-- The exact value of the float literal `0.4`. -/
def q04 : ℚ := ⟨2, 5, by decide, by decide⟩

/-- The exact value of the float literal `0.1`. -/
def q01 : ℚ := ⟨1, 10, by decide, by decide⟩

/-- The command table, in its fixed declaration order (a Python `dict`
preserves insertion order).  Velocities are the exact decimal values of the
source's float literals: `(0.2, 0.0)`, `(-0.2, 0.0)`, `(0.0, 0.5)`, …. -/
def commands : List (String × ℚ × ℚ) :=
  [("前进", (q02, 0)), ("向前", (q02, 0)), ("后退", (qm02, 0)),
   ("左转", (0, q05)), ("右转", (0, qm05)), ("停", (0, 0)),
   ("停止", (0, 0)), ("原地左转", (0, 1)), ("原地右转", (0, -1)),
   ("加速", (q04, 0)), ("减速", (q01, 0))]

/-- The `for cmd, (linear_x, angular_z) in self.commands.items()` loop of
`handle_final_result`: the first table entry whose trigger phrase occurs in
the transcript. -/
def dispatch (text : String) : Option (String × ℚ × ℚ) :=
  commands.find? fun e => substrB e.1 text

/-- Modelled from the spec: first-match dispatch written as the spec
describes it — iterate the table in declaration order, return the first
entry whose trigger phrase is a substring.  Used to cross-check
`dispatch`. -/
def firstMatchSpec (text : String) : List (String × ℚ × ℚ) → Option (String × ℚ × ℚ)
  | [] => none
  | e :: rest => if substrB e.1 text then some e else firstMatchSpec text rest

/-- The motion commands published by one call of `handle_final_result`:
nothing on an empty transcript, the first matching entry's `(linear_x,
angular_z)` pair otherwise, nothing on no match. -/
def handle_final_result (text : String) : List (ℚ × ℚ) :=
  if text = "" then []
  else
    match dispatch text with
    | some e => [e.2]
    | none => []

/-! ## RecordingController

Source: the space-key branch of `VoiceControlNode.on_key_press`
(lines 188-217).  A frame is the processed byte chunk appended by
`capture_audio_loop`; the buffer is the list of such chunks. -/

/-- The recording flag and audio buffer guarded by `recording_lock`. -/
structure ControllerState where
  is_recording : Bool
  audio_buffer : List (List ℤ)
deriving DecidableEq, Repr

/-- Observable outcome of one space-key toggle. -/
inductive ToggleOutcome where
  /-- Recording started (`▶️ 录音开始`). -/
  | started
  /-- Recording stopped with an empty buffer (`录音内容为空`). -/
  | emptySession
  /-- Recording stopped non-empty: a recognition thread is spawned on the
  joined buffer (`b''.join(self.audio_buffer)`). -/
  | spawned (data : List ℤ)
deriving DecidableEq, Repr

/-- The initial state: `is_recording = False`, `audio_buffer = []`. -/
def idleInit : ControllerState := ⟨false, []⟩

/-- One space-key event: flip `is_recording`; on start clear the buffer, on
stop either spawn recognition on the joined buffer or report an empty
recording. -/
def on_space (s : ControllerState) : ControllerState × ToggleOutcome :=
  if !s.is_recording then
    (⟨true, []⟩, .started)
  else if s.audio_buffer ≠ [] then
    (⟨false, s.audio_buffer⟩, .spawned s.audio_buffer.flatten)
  else
    (⟨false, s.audio_buffer⟩, .emptySession)

/-- Run `n` successive toggle events with no intervening captured frames,
collecting the outcomes in order. -/
def runToggles : ℕ → ControllerState → ControllerState × List ToggleOutcome
  | 0, s => (s, [])
  | n + 1, s =>
    let p := on_space s
    let q := runToggles n p.1
    (q.1, p.2 :: q.2)

/-! ## AudioDeviceManager: close

Source: `AudioDeviceManager.close` (lines 137-142).  The pyaudio handle
calls (`stop_stream`, `close`, `terminate`) are external library calls
modelled as total status transitions, per the spec's contract for them. -/

/-- Status of the pyaudio stream handle held in `self.stream`. -/
inductive StreamStatus where
  | running
  | stopped
  | closed
deriving DecidableEq, Repr

/-- `stream.stop_stream()`: a running stream stops; otherwise no change. -/
def stopStream : StreamStatus → StreamStatus
  | .running => .stopped
  | .stopped => .stopped
  | .closed => .closed

/-- `stream.close()`: the handle is closed whatever its status was. -/
def closeStream : StreamStatus → StreamStatus
  | _ => .closed

/-- The manager state visible to `close`: the stream handle (still `None`
if `open_stream` never ran — `close` never resets it) and whether
`self.p.terminate()` has run. -/
structure ADMState where
  stream : Option StreamStatus
  pa_terminated : Bool
deriving DecidableEq, Repr

/-- `AudioDeviceManager.close`: `if self.stream:` stop and close it, then
`self.p.terminate()`. -/
def close (s : ADMState) : ADMState :=
  match s.stream with
  | some st => { stream := some (closeStream (stopStream st)), pa_terminated := true }
  | none => { s with pa_terminated := true }

/-! ## AudioDeviceManager: resample_audio

Source: `AudioDeviceManager.resample_audio` (lines 117-135).  A frame is
its `np.int16` sample list.  `librosa.resample` is an external DSP routine,
abstracted as an oracle on the exact rational signal; `none` models the
exception caught by the `except` clause. -/

/-- Target rate constant `RATE_TARGET = 16000`. -/
def RATE_TARGET : ℕ := 16000

/-- Numpy's float→int conversion (`astype(np.int16)`): truncation toward
zero. -/
def truncToInt (q : ℚ) : ℤ :=
  if 0 ≤ q then ⌊q⌋ else ⌈q⌉

/-- The 16-bit narrowing of `astype(np.int16)`: two's-complement wrap of
the truncated value into `[-32768, 32767]`. -/
def wrapInt16 (z : ℤ) : ℤ :=
  (z + 32768) % 65536 - 32768

/-- The `reshape(-1, c).mean(axis=1).astype(np.int16)` downmix: split the
interleaved samples into frame positions of `c` channel samples and take
the truncated mean of each. -/
def meanChunks (c : ℕ) (l : List ℤ) : List ℤ :=
  if h : c = 0 ∨ l = [] then []
  else truncToInt (((l.take c).sum : ℚ) / (c : ℚ)) :: meanChunks c (l.drop c)
termination_by l.length
decreasing_by
  push_neg at h
  have hl : 0 < l.length := List.length_pos.mpr h.2
  simp only [List.length_drop]
  omega

/-- Device-format fields of `AudioDeviceManager` read by `resample_audio`. -/
structure AudioMgr where
  input_rate : ℕ
  input_channels : ℕ
  resample_required : Bool

/-- `resample_audio`: identity unless `resample_required`; else downmix
when multi-channel, then — only when the native rate differs from 16000 —
normalize to `[-1, 1)` floats, hand to the `librosa.resample` oracle and
requantize the result into int16 (truncation toward zero, then 16-bit
two's-complement wrap), falling back to the downmixed signal if the oracle
raises. -/
def resample_audio (mgr : AudioMgr)
    (librosaRes : List ℚ → ℕ → ℕ → Option (List ℚ))
    (data : List ℤ) : List ℤ :=
  if mgr.resample_required = false then data
  else
    let audio := if 1 < mgr.input_channels then meanChunks mgr.input_channels data else data
    if mgr.input_rate ≠ RATE_TARGET then
      match librosaRes (audio.map fun a => (a : ℚ) / 32768) mgr.input_rate RATE_TARGET with
      | some rf => rf.map fun q => wrapInt16 (truncToInt (q * 32768))
      | none => audio
    else
      audio

/-! ## Byte-level encoders

`base64.b64encode` and UTF-8 encoding (`str.encode('utf-8')`), executable
over `List ℕ` byte strings. -/

/-- The base64 alphabet. -/
def b64table : List Char :=
  "ABCDEFGHIJKLMNOPQRSTUVWXYZabcdefghijklmnopqrstuvwxyz0123456789+/".data

/-- The base64 digit for a 6-bit value. -/
def b64char (n : ℕ) : Char := b64table.getD n 'A'

/-- Core of base64: three input bytes become four digits; a short final
group is padded with `=`. -/
def b64core : List ℕ → List Char
  | [] => []
  | [a] => [b64char (a / 4), b64char (a % 4 * 16), '=', '=']
  | [a, b] => [b64char (a / 4), b64char (a % 4 * 16 + b / 16), b64char (b % 16 * 4), '=']
  | a :: b :: c :: rest =>
    b64char (a / 4) :: b64char (a % 4 * 16 + b / 16) ::
      b64char (b % 16 * 4 + c / 64) :: b64char (c % 64) :: b64core rest

/-- `base64.b64encode(bytes).decode('utf-8')`. -/
def b64encode (bs : List ℕ) : String := String.mk (b64core bs)

/-- UTF-8 encoding of one character. -/
def utf8Char (c : Char) : List ℕ :=
  let n := c.toNat
  if n < 128 then [n]
  else if n < 2048 then [192 + n / 64, 128 + n % 64]
  else if n < 65536 then [224 + n / 4096, 128 + n / 64 % 64, 128 + n % 64]
  else [240 + n / 262144, 128 + n / 4096 % 64, 128 + n / 64 % 64, 128 + n % 64]

/-- `s.encode('utf-8')` as a byte list. -/
def utf8Bytes (s : String) : List ℕ := (s.data.map utf8Char).flatten

/-! ## RecognitionClient: session protocol

Source: `VoiceControlNode.process_audio` (lines 230-274),
`VoiceControlNode.create_ws_param` (lines 300-304) and
`VoiceControlNode.handle_final_result`.  Websocket traffic is modelled by
the list of sent frames and the list of response messages the service
would deliver, in order. -/

/-- Python truthiness of an `os.getenv` result: `None` and `""` are
falsy. -/
def pyTruthy : Option String → Bool
  | none => false
  | some s => s ≠ ""

/-- The credential triple and constant protocol arguments of the nested
`Ws_Param` class. -/
structure WsParam where
  APPID : String
  APIKey : String
  APISecret : String
deriving DecidableEq, Repr

/-- The constant `BusinessArgs` dict `{"domain": "iat", "language":
"zh_cn", "accent": "mandarin"}`. -/
structure BusinessArgs where
  domain : String
  language : String
  accent : String
deriving DecidableEq, Repr

/-- `Ws_Param.BusinessArgs` as set in `Ws_Param.__init__`. -/
def WsParam.businessArgs (_ : WsParam) : BusinessArgs :=
  ⟨"iat", "zh_cn", "mandarin"⟩

/-- `create_ws_param`: `None` unless all three credentials are truthy. -/
def create_ws_param (appid apikey apisecret : Option String) : Option WsParam :=
  if pyTruthy appid && pyTruthy apikey && pyTruthy apisecret then
    some ⟨appid.getD "", apikey.getD "", apisecret.getD ""⟩
  else
    none

/-- One websocket frame sent by `process_audio`, with the fields the JSON
payload carries. -/
inductive SentFrame where
  /-- `{"common": {"app_id": ...}, "business": ..., "data": {"status": 0}}`. -/
  | start (app_id : String) (business : BusinessArgs) (status : ℕ)
  /-- `{"data": {"status": 1, "audio": <base64>}}`. -/
  | audioData (status : ℕ) (audio : String)
  /-- `{"data": {"status": 2}}`. -/
  | finishF (status : ℕ)
deriving DecidableEq, Repr

/-- One service response message: `code`, optional `message`,
`data.status`, and the word texts `data.result.ws[*].cw[*].w` in their
hierarchical grouping. -/
structure RespMsg where
  code : ℤ
  message : Option String
  status : ℤ
  ws : List (List String)
deriving DecidableEq, Repr

/-- The word texts of one message, flattened and concatenated in order
(the `words` list comprehension plus `"".join(words)`). -/
def msgWords (m : RespMsg) : String := String.join m.ws.flatten

/-- How the `while True` receive loop ended. -/
inductive RecvOutcome where
  /-- A message with `code != 0` broke the loop; carries the logged
  service message and the transcript accumulated so far. -/
  | errorAbort (logged : String) (transcript : String)
  /-- A message with `data.status == 2` broke the loop; carries the final
  transcript. -/
  | finalOk (transcript : String)
deriving DecidableEq, Repr

/-- The receive loop of `process_audio`: accumulate word texts until a
non-zero `code` (error break, before appending that message's words) or
`status == 2` (final break, after appending).  `none` models a message
list exhausted with the loop still blocked in `ws.recv()`. -/
def recvLoop (acc : String) : List RespMsg → Option RecvOutcome
  | [] => none
  | m :: rest =>
    if m.code ≠ 0 then some (.errorAbort (m.message.getD "未知错误") acc)
    else
      let acc2 := acc ++ msgWords m
      if m.status = 2 then some (.finalOk acc2) else recvLoop acc2 rest

/-- Modelled from the spec: the messages the client actually receives — the
stream up to and including the first one with `status == 2` or a non-zero
`code`. -/
def receivedPrefix : List RespMsg → List RespMsg
  | [] => []
  | m :: rest =>
    if m.code ≠ 0 then [m]
    else if m.status = 2 then [m]
    else m :: receivedPrefix rest

/-- Modelled from the spec: the concatenation, in arrival order, of every
`w` word-text field of a message list. -/
def allWords : List RespMsg → String
  | [] => ""
  | m :: rest => msgWords m ++ allWords rest

/-- Everything observable about one `process_audio` call. -/
structure SessionTrace where
  /-- Credentials were missing: `create_ws_param` returned `None` and the
  call returned before touching the network. -/
  authFailed : Bool
  /-- `websocket.create_connection` was reached. -/
  connAttempted : Bool
  /-- The frames sent, in order. -/
  sent : List SentFrame
  /-- The `识别错误` log line's service message, if the receive loop broke
  on a non-zero code. -/
  recErrorLogged : Option String
  /-- The motion commands published via `handle_final_result`. -/
  published : List (ℚ × ℚ)
deriving DecidableEq, Repr

/-- `process_audio`: authenticate, send the three protocol frames, run the
receive loop, and hand the accumulated transcript to
`handle_final_result` (the source does this after an error break too). -/
def process_audio (appid apikey apisecret : Option String)
    (audio : List ℕ) (msgs : List RespMsg) : SessionTrace :=
  match create_ws_param appid apikey apisecret with
  | none => ⟨true, false, [], none, []⟩
  | some p =>
    let sent := [SentFrame.start p.APPID p.businessArgs 0,
                 SentFrame.audioData 1 (b64encode audio),
                 SentFrame.finishF 2]
    match recvLoop "" msgs with
    | none => ⟨false, true, sent, none, []⟩
    | some (.errorAbort em t) => ⟨false, true, sent, some em, handle_final_result t⟩
    | some (.finalOk t) => ⟨false, true, sent, none, handle_final_result t⟩

/-! ## SHA-256, HMAC-SHA256

Executable embeddings of `hashlib.sha256` and `hmac.new(...,
digestmod=hashlib.sha256)` over `List ℕ` byte strings, with 32-bit words
as `ℕ` reduced `% 2^32`. -/

/-- `2^32`, the word modulus. -/
def M32 : ℕ := 4294967296

/-- Right-rotation of a 32-bit word by `k`. -/
def rotr (k n : ℕ) : ℕ := (n / 2 ^ k + n % 2 ^ k * 2 ^ (32 - k)) % M32

/-- Message-schedule small sigma 0: `rotr 7 ^^^ rotr 18 ^^^ shr 3`. -/
def schedSig0 (n : ℕ) : ℕ := rotr 7 n ^^^ rotr 18 n ^^^ n / 2 ^ 3

/-- Message-schedule small sigma 1: `rotr 17 ^^^ rotr 19 ^^^ shr 10`. -/
def schedSig1 (n : ℕ) : ℕ := rotr 17 n ^^^ rotr 19 n ^^^ n / 2 ^ 10

/-- Compression big Sigma 0: `rotr 2 ^^^ rotr 13 ^^^ rotr 22`. -/
def compSig0 (n : ℕ) : ℕ := rotr 2 n ^^^ rotr 13 n ^^^ rotr 22 n

/-- Compression big Sigma 1: `rotr 6 ^^^ rotr 11 ^^^ rotr 25`. -/
def compSig1 (n : ℕ) : ℕ := rotr 6 n ^^^ rotr 11 n ^^^ rotr 25 n

/-- The choice function `(e ∧ f) ⊕ (¬e ∧ g)` on 32-bit words. -/
def chBits (e f g : ℕ) : ℕ := (e &&& f) ^^^ ((4294967295 - e) &&& g)

/-- The majority function `(a ∧ b) ⊕ (a ∧ c) ⊕ (b ∧ c)`. -/
def majBits (a b c : ℕ) : ℕ := (a &&& b) ^^^ (a &&& c) ^^^ (b &&& c)

/-- The 64 SHA-256 round constants of FIPS 180-4, as decimal `ℕ`
literals. -/
def K256 : List ℕ :=
  [1116352408, 1899447441, 3049323471, 3921009573, 961987163, 1508970993,
   2453635748, 2870763221, 3624381080, 310598401, 607225278, 1426881987,
   1925078388, 2162078206, 2614888103, 3248222580, 3835390401, 4022224774,
   264347078, 604807628, 770255983, 1249150122, 1555081692, 1996064986,
   2554220882, 2821834349, 2952996808, 3210313671, 3336571891, 3584528711,
   113926993, 338241895, 666307205, 773529912, 1294757372, 1396182291,
   1695183700, 1986661051, 2177026350, 2456956037, 2730485921, 2820302411,
   3259730800, 3345764771, 3516065817, 3600352804, 4094571909, 275423344,
   430227734, 506948616, 659060556, 883997877, 958139571, 1322822218,
   1537002063, 1747873779, 1955562222, 2024104815, 2227730452, 2361852424,
   2428436474, 2756734187, 3204031479, 3329325298]

/-- The eight initial hash words of FIPS 180-4, as decimal `ℕ` literals. -/
def H256init : List ℕ :=
  [1779033703, 3144134277, 1013904242, 2773480762,
   1359893119, 2600822924, 528734635, 1541459225]

/-- Big-endian 32-bit words from bytes. -/
def bytesToWords : List ℕ → List ℕ
  | b0 :: b1 :: b2 :: b3 :: rest =>
    (b0 * 16777216 + b1 * 65536 + b2 * 256 + b3) :: bytesToWords rest
  | _ => []

/-- The next message-schedule word from the ones built so far. -/
def schedNext (ws : List ℕ) : ℕ :=
  let i := ws.length
  (ws.getD (i - 16) 0 + schedSig0 (ws.getD (i - 15) 0) + ws.getD (i - 7) 0 + schedSig1 (ws.getD (i - 2) 0)) % M32

/-- Extend the message schedule by `n` words. -/
def buildW : ℕ → List ℕ → List ℕ
  | 0, ws => ws
  | n + 1, ws => buildW n (ws ++ [schedNext ws])

/-- One compression round on the eight working words. -/
def sha256round (st : List ℕ) (kw : ℕ × ℕ) : List ℕ :=
  match st with
  | [a, b, c, d, e, f, g, h] =>
    let t1 := (h + compSig1 e + chBits e f g + kw.1 + kw.2) % M32
    let t2 := (compSig0 a + majBits a b c) % M32
    [(t1 + t2) % M32, a, b, c, (d + t1) % M32, e, f, g]
  | other => other

/-- Compress one 64-byte block into the running state. -/
def sha256block (st : List ℕ) (blk : List ℕ) : List ℕ :=
  let w := buildW 48 (bytesToWords blk)
  let st2 := (K256.zip w).foldl sha256round st
  st.zipWith (fun x y => (x + y) % M32) st2

/-- Merkle–Damgård padding: `0x80`, zeros to 56 mod 64, then the bit
length as 8 big-endian bytes. -/
def sha256pad (msg : List ℕ) : List ℕ :=
  let z := (120 - (msg.length + 1) % 64) % 64
  msg ++ 128 :: (List.replicate z 0 ++
    [8 * msg.length / 2 ^ 56 % 256, 8 * msg.length / 2 ^ 48 % 256,
     8 * msg.length / 2 ^ 40 % 256, 8 * msg.length / 2 ^ 32 % 256,
     8 * msg.length / 2 ^ 24 % 256, 8 * msg.length / 2 ^ 16 % 256,
     8 * msg.length / 2 ^ 8 % 256, 8 * msg.length % 256])

/-- Big-endian bytes of a 32-bit word. -/
def wordBytes (n : ℕ) : List ℕ :=
  [n / 2 ^ 24 % 256, n / 2 ^ 16 % 256, n / 2 ^ 8 % 256, n % 256]

/-- `hashlib.sha256(msg).digest()` as 32 bytes. -/
def sha256 (msg : List ℕ) : List ℕ :=
  ((((sha256pad msg).toChunks 64).foldl sha256block H256init).map wordBytes).flatten

/-- `hmac.new(key, msg, digestmod=hashlib.sha256).digest()`. -/
def hmacSha256 (key msg : List ℕ) : List ℕ :=
  let k1 := if 64 < key.length then sha256 key else key
  let k0 := k1 ++ List.replicate (64 - k1.length) 0
  sha256 ((k0.map fun b => b ^^^ 92) ++ sha256 ((k0.map fun b => b ^^^ 54) ++ msg))

/-! ## RecognitionClient: signed URL

Source: `Ws_Param.create_url` (lines 313-323).  `urllib.parse.urlencode`
percent-encodes each key and value with `quote_plus`.  The external
`format_date_time(mktime(datetime.now().timetuple()))` pipeline is
abstracted as a `formatDate` function of the current timestamp. -/

/-- Uppercase hex digit. -/
def hexUpper (n : ℕ) : Char :=
  match n with
  | 0 => '0' | 1 => '1' | 2 => '2' | 3 => '3' | 4 => '4' | 5 => '5' | 6 => '6' | 7 => '7'
  | 8 => '8' | 9 => '9' | 10 => 'A' | 11 => 'B' | 12 => 'C' | 13 => 'D' | 14 => 'E' | _ => 'F'

/-- `urllib`'s always-safe bytes: ASCII alphanumerics and `-._~`. -/
def safeByte (b : ℕ) : Bool :=
  (48 ≤ b && b ≤ 57) || (65 ≤ b && b ≤ 90) || (97 ≤ b && b ≤ 122) ||
    b == 45 || b == 46 || b == 95 || b == 126

/-- `quote_plus` on one byte: safe bytes pass through, space becomes `+`,
anything else becomes `%XX`. -/
def quoteByte (b : ℕ) : List Char :=
  if safeByte b then [Char.ofNat b]
  else if b == 32 then ['+']
  else ['%', hexUpper (b / 16 % 16), hexUpper (b % 16)]

/-- `urllib.parse.quote_plus` over the UTF-8 bytes of a string. -/
def quotePlus (s : String) : String :=
  String.mk ((utf8Bytes s).map quoteByte).flatten

/-- `urllib.parse.urlencode`: `k=v` pairs joined with `&`, keys and values
percent-encoded, in dict insertion order. -/
def urlencodeQ : List (String × String) → String
  | [] => ""
  | [kv] => quotePlus kv.1 ++ "=" ++ quotePlus kv.2
  | kv :: rest => quotePlus kv.1 ++ "=" ++ quotePlus kv.2 ++ "&" ++ urlencodeQ rest

/-- `Ws_Param.create_url`, with the wall clock made explicit: the RFC-1123
date string is `formatDate now`. -/
def create_url (p : WsParam) (formatDate : ℕ → String) (now : ℕ) : String :=
  let date := formatDate now
  let signature_origin := "host: ws-api.xfyun.cn\ndate: " ++ date ++ "\nGET /v2/iat HTTP/1.1"
  let signature_sha := hmacSha256 (utf8Bytes p.APISecret) (utf8Bytes signature_origin)
  let signature := b64encode signature_sha
  let authorization_origin :=
    "api_key=\"" ++ p.APIKey ++ "\", algorithm=\"hmac-sha256\", headers=\"host date request-line\", signature=\"" ++ signature ++ "\""
  let authorization := b64encode (utf8Bytes authorization_origin)
  "wss://ws-api.xfyun.cn/v2/iat" ++ "?" ++
    urlencodeQ [("authorization", authorization), ("date", date), ("host", "ws-api.xfyun.cn")]

/-- Modelled from the spec: the canonical string `"host: <host>\ndate:
<rfc1123 date>\nGET <path> HTTP/1.1"`. -/
def canonicalString (date : String) : String :=
  "host: ws-api.xfyun.cn\ndate: " ++ date ++ "\nGET /v2/iat HTTP/1.1"

/-- Modelled from the spec: the signature — HMAC-SHA256 keyed by the API
secret over the canonical string, base64-encoded. -/
def signatureOf (apiSecret date : String) : String :=
  b64encode (hmacSha256 (utf8Bytes apiSecret) (utf8Bytes (canonicalString date)))

/-- Modelled from the spec: the authorization origin packing the API key
and the signature. -/
def authOriginOf (apiKey sig : String) : String :=
  "api_key=\"" ++ apiKey ++ "\", algorithm=\"hmac-sha256\", headers=\"host date request-line\", signature=\"" ++ sig ++ "\""

/-- Modelled from the spec: the full signed URL with exactly the query
parameters `authorization`, `date` and `host`. -/
def specSignedUrl (apiKey apiSecret date : String) : String :=
  "wss://ws-api.xfyun.cn/v2/iat" ++ "?" ++
    urlencodeQ [("authorization", b64encode (utf8Bytes (authOriginOf apiKey (signatureOf apiSecret date)))),
                ("date", date), ("host", "ws-api.xfyun.cn")]

/-! ## Query-string parser

Used to state that the produced URL carries exactly the query parameters
`authorization`, `date` and `host`. -/

/-- Split a character list on a separator (the separator is dropped). -/
def splitOnCh (c : Char) : List Char → List (List Char)
  | [] => [[]]
  | x :: xs =>
    if x == c then [] :: splitOnCh c xs
    else
      match splitOnCh c xs with
      | [] => [[x]]
      | g :: gs => (x :: g) :: gs

/-- The characters after the first `?` of a URL. -/
def queryOf (u : String) : List Char := (u.data.dropWhile (· ≠ '?')).drop 1

/-- The `k=v` pairs of a URL's query string. -/
def queryPairs (u : String) : List (List Char × List Char) :=
  (splitOnCh '&' (queryOf u)).map fun kv =>
    (kv.takeWhile (· ≠ '='), (kv.dropWhile (· ≠ '=')).drop 1)

/-- The query parameter names of a URL, in order. -/
def queryKeysOf (u : String) : List String :=
  (queryPairs u).map fun kv => String.mk kv.1

/-- The query parameter values of a URL, in order. -/
def queryValsOf (u : String) : List String :=
  (queryPairs u).map fun kv => String.mk kv.2

/-! ## Theorems: CommandDispatcher -/

theorem q02_value : q02 = 0.2 := by
  rw [q02, Rat.mk'_eq_divInt, Rat.divInt_eq_div]; norm_num

theorem qm02_value : qm02 = -0.2 := by
  rw [qm02, Rat.mk'_eq_divInt, Rat.divInt_eq_div]; norm_num

theorem q05_value : q05 = 0.5 := by
  rw [q05, Rat.mk'_eq_divInt, Rat.divInt_eq_div]; norm_num

theorem qm05_value : qm05 = -0.5 := by
  rw [qm05, Rat.mk'_eq_divInt, Rat.divInt_eq_div]; norm_num

theorem q04_value : q04 = 0.4 := by
  rw [q04, Rat.mk'_eq_divInt, Rat.divInt_eq_div]; norm_num

theorem q01_value : q01 = 0.1 := by
  rw [q01, Rat.mk'_eq_divInt, Rat.divInt_eq_div]; norm_num

theorem find?_eq_firstMatchSpec (t : String) (l : List (String × ℚ × ℚ)) :
    l.find? (fun e => substrB e.1 t) = firstMatchSpec t l := by
  induction l with
  | nil => rfl
  | cons e rest ih => cases hb : substrB e.1 t <;> simp [List.find?_cons, firstMatchSpec, hb, ih]

/-- C2: dispatch walks the command table in its fixed declaration order and
fires the first entry whose trigger phrase is a substring of the
transcript, publishing exactly that entry's velocity pair; the transcript
"请停止" selects the entry bound to "停", not "停止"; and with no matching
trigger phrase the result is `none` and nothing is published. -/
theorem dispatch_order_first_match (t : String)
    (h : ∀ e ∈ commands, substrB e.1 t = false) :
    (∀ u : String, dispatch u = firstMatchSpec u commands)
  ∧ dispatch "请停止" = some ("停", 0, 0)
  ∧ (∀ u e, dispatch u = some e → handle_final_result u = [e.2])
  ∧ dispatch t = none ∧ handle_final_result t = [] := by
  have hnone : dispatch t = none := by
    apply List.find?_eq_none.mpr
    intro e he
    simp [h e he]
  refine ⟨fun u => find?_eq_firstMatchSpec u commands, by decide, ?_, hnone, ?_⟩
  · intro u e he
    by_cases hu : u = ""
    · have hempty : dispatch "" = none := by decide
      rw [hu] at he
      rw [hempty] at he
      cases he
    · unfold handle_final_result
      rw [if_neg hu, he]
  · unfold handle_final_result
    by_cases ht : t = ""
    · rw [if_pos ht]
    · rw [if_neg ht, hnone]

/-- C2 witness: the theorem evaluated at the no-match transcript "你好". -/
theorem dispatch_order_first_match_witness :
    (∀ u : String, dispatch u = firstMatchSpec u commands)
  ∧ dispatch "请停止" = some ("停", 0, 0)
  ∧ (∀ u e, dispatch u = some e → handle_final_result u = [e.2])
  ∧ dispatch "你好" = none ∧ handle_final_result "你好" = [] :=
  dispatch_order_first_match "你好" (by decide)

/-! ## Theorems: RecordingController -/

theorem on_space_idle (buf : List (List ℤ)) :
    on_space ⟨false, buf⟩ = (⟨true, []⟩, .started) := rfl

theorem on_space_rec_empty : on_space ⟨true, []⟩ = (idleInit, .emptySession) := by
  simp [on_space, idleInit]

theorem runToggles_succ (n : ℕ) (s : ControllerState) :
    runToggles (n + 1) s =
      ((runToggles n (on_space s).1).1, (on_space s).2 :: (runToggles n (on_space s).1).2) := rfl

theorem runToggles_even (n : ℕ) :
    runToggles (2 * n) idleInit =
      (idleInit, (List.replicate n [ToggleOutcome.started, ToggleOutcome.emptySession]).flatten) := by
  induction n with
  | zero => rfl
  | succ m ih =>
    have h2 : 2 * (m + 1) = 2 * m + 1 + 1 := by ring
    rw [h2, runToggles_succ]
    have h0 : on_space idleInit = (⟨true, []⟩, .started) := rfl
    rw [h0]
    rw [runToggles_succ]
    rw [on_space_rec_empty]
    rw [ih]
    simp [List.replicate_succ]

theorem flatten_rep_last (n : ℕ) (h : 1 ≤ n) :
    ((List.replicate n [ToggleOutcome.started, ToggleOutcome.emptySession]).flatten).getLast? =
      some ToggleOutcome.emptySession := by
  induction n with
  | zero => omega
  | succ m ih =>
    rcases Nat.eq_zero_or_pos m with hm | hm
    · subst hm; rfl
    · have hne : (List.replicate m [ToggleOutcome.started, ToggleOutcome.emptySession]).flatten ≠ [] := by
        rcases m with _ | m2
        · omega
        · simp [List.replicate_succ]
      rw [List.replicate_succ, List.flatten_cons, List.getLast?_append_of_ne_nil _ hne]
      exact ih hm

/-- C3: every space-key toggle flips the recording flag, so the state
strictly alternates; the start transition clears the buffer; stopping with
an empty buffer yields the empty-recording outcome; and any even number of
toggles from idle with no intervening frames returns the controller to the
idle state with an alternating started/empty outcome trace that ends in
`emptySession` and never spawns a recognition task. -/
theorem toggle_state_machine (n : ℕ) (s : ControllerState) (buf : List (List ℤ))
    (hn : 1 ≤ n) :
    (on_space s).1.is_recording = !s.is_recording
  ∧ on_space ⟨false, buf⟩ = (⟨true, []⟩, .started)
  ∧ on_space ⟨true, []⟩ = (idleInit, .emptySession)
  ∧ runToggles (2 * n) idleInit =
      (idleInit, (List.replicate n [ToggleOutcome.started, ToggleOutcome.emptySession]).flatten)
  ∧ (runToggles (2 * n) idleInit).2.getLast? = some ToggleOutcome.emptySession
  ∧ ∀ d, ToggleOutcome.spawned d ∉ (runToggles (2 * n) idleInit).2 := by
  refine ⟨?_, on_space_idle buf, on_space_rec_empty, runToggles_even n, ?_, ?_⟩
  · rcases s with ⟨r, b⟩
    cases r
    · rfl
    · by_cases hb : b ≠ [] <;> simp [on_space, hb]
  · rw [runToggles_even n]
    exact flatten_rep_last n hn
  · intro d hd
    rw [runToggles_even n] at hd
    rw [List.mem_flatten] at hd
    obtain ⟨l, hl, hmem⟩ := hd
    rw [List.mem_replicate] at hl
    rw [hl.2] at hmem
    simp at hmem

/-- C3 witness: the theorem evaluated at one start/stop toggle pair from
the initial state. -/
theorem toggle_state_machine_witness :
    (on_space idleInit).1.is_recording = !idleInit.is_recording
  ∧ on_space ⟨false, ([] : List (List ℤ))⟩ = (⟨true, []⟩, .started)
  ∧ on_space ⟨true, []⟩ = (idleInit, .emptySession)
  ∧ runToggles (2 * 1) idleInit =
      (idleInit, (List.replicate 1 [ToggleOutcome.started, ToggleOutcome.emptySession]).flatten)
  ∧ (runToggles (2 * 1) idleInit).2.getLast? = some ToggleOutcome.emptySession
  ∧ ∀ d, ToggleOutcome.spawned d ∉ (runToggles (2 * 1) idleInit).2 :=
  toggle_state_machine 1 idleInit [] (by decide)

/-! ## Theorems: AudioDeviceManager.close -/

/-- C9: `close` is idempotent — a second call leaves the manager state
exactly as the first left it — and is safe (fully defined, touching no
stream handle) when the stream was never opened. -/
theorem close_idempotent_safe (s : ADMState) (b : Bool) :
    close (close s) = close s ∧ close ⟨none, b⟩ = ⟨none, true⟩ := by
  constructor
  · rcases s with ⟨st, t⟩
    rcases st with _ | st
    · rfl
    · cases st <;> rfl
  · rfl

/-! ## Theorems: AudioDeviceManager.resample_audio -/

theorem meanChunks_nil (c : ℕ) : meanChunks c [] = [] := by
  rw [meanChunks]
  simp

theorem meanChunks_cons (c : ℕ) (l : List ℤ) (hc : c ≠ 0) (hl : l ≠ []) :
    meanChunks c l =
      truncToInt (((l.take c).sum : ℚ) / (c : ℚ)) :: meanChunks c (l.drop c) := by
  rw [meanChunks]
  rw [dif_neg (by simp [hc, hl])]

theorem truncToInt_intCast (z : ℤ) : truncToInt (z : ℚ) = z := by
  unfold truncToInt
  split
  · exact Int.floor_intCast z
  · exact Int.ceil_intCast z

theorem meanChunks_one (l : List ℤ) : meanChunks 1 l = l := by
  induction l with
  | nil => exact meanChunks_nil 1
  | cons a t ih =>
    rw [meanChunks_cons 1 (a :: t) one_ne_zero (List.cons_ne_nil a t)]
    simp [ih, truncToInt_intCast]

theorem meanChunks_length_mul (c : ℕ) (hc : c ≠ 0) :
    ∀ n (l : List ℤ), l.length = c * n → (meanChunks c l).length = n := by
  intro n
  induction n with
  | zero =>
    intro l hl
    have h0 : l = [] := List.eq_nil_of_length_eq_zero (by omega)
    rw [h0, meanChunks_nil]
    rfl
  | succ m ih =>
    intro l hl
    have hlnil : l ≠ [] := by
      intro h0
      rw [h0] at hl
      simp only [List.length_nil] at hl
      rcases Nat.mul_eq_zero.mp hl.symm with h | h
      · exact hc h
      · exact Nat.succ_ne_zero m h
    rw [meanChunks_cons c l hc hlnil, List.length_cons]
    have hdrop : (l.drop c).length = c * m := by
      rw [List.length_drop, hl, Nat.mul_succ]
      omega
    rw [ih (l.drop c) hdrop]

theorem wrapInt16_mem (z : ℤ) : -32768 ≤ wrapInt16 z ∧ wrapInt16 z ≤ 32767 := by
  unfold wrapInt16
  have h1 : 0 ≤ (z + 32768) % 65536 := Int.emod_nonneg _ (by omega)
  have h2 : (z + 32768) % 65536 < 65536 := Int.emod_lt_of_pos _ (by omega)
  omega

/-- C4: `resample_audio` is the identity when `resample_required` is
false; when required, with a multi-channel device whose native rate
differs from 16000 Hz and a successful conversion, it downmixes to mono by
per-position channel averaging, hands the normalized signal to the rate
converter, and requantizes the converter's output to 16-bit signed
integers — truncation toward zero wrapped two's-complement into
`[-32768, 32767]`, every requantized sample provably in that range; and
the downmix takes the truncated mean of each frame position's channel
group. -/
theorem resample_pipeline (rate ch : ℕ) (lr : List ℚ → ℕ → ℕ → Option (List ℚ))
    (data grp rest : List ℤ) (out : List ℚ)
    (hrate : rate ≠ RATE_TARGET) (hch : 1 < ch)
    (hlr : lr ((meanChunks ch data).map fun a => (a : ℚ) / 32768) rate RATE_TARGET = some out)
    (hg : grp.length = ch) :
    resample_audio ⟨rate, ch, false⟩ lr data = data
  ∧ resample_audio ⟨rate, ch, true⟩ lr data =
      out.map (fun q => wrapInt16 (truncToInt (q * 32768)))
  ∧ (∀ z ∈ resample_audio ⟨rate, ch, true⟩ lr data, -32768 ≤ z ∧ z ≤ 32767)
  ∧ meanChunks ch (grp ++ rest) =
      truncToInt ((grp.sum : ℚ) / (ch : ℚ)) :: meanChunks ch rest := by
  have hmain : resample_audio ⟨rate, ch, true⟩ lr data =
      out.map (fun q => wrapInt16 (truncToInt (q * 32768))) := by
    unfold resample_audio
    simp only [Bool.true_eq_false, if_false, hch, if_true, if_pos hrate, hlr]
  refine ⟨rfl, hmain, ?_, ?_⟩
  · intro z hz
    rw [hmain, List.mem_map] at hz
    obtain ⟨q, _, rfl⟩ := hz
    exact wrapInt16_mem (truncToInt (q * 32768))
  · have hc0 : ch ≠ 0 := by omega
    have hne : grp ++ rest ≠ [] := by
      have hlen : (grp ++ rest).length ≠ 0 := by
        rw [List.length_append, hg]
        omega
      exact fun h0 => hlen (by rw [h0]; rfl)
    rw [meanChunks_cons ch (grp ++ rest) hc0 hne, List.take_left' hg, List.drop_left' hg]

/-- C4 witness: a 2-channel 44100 Hz device with a concrete converter
whose output `1.0` requantizes to the wrapped int16 value `-32768`. -/
theorem resample_pipeline_witness :
    resample_audio ⟨44100, 2, false⟩ (fun _ _ _ => some [1]) [2, 4] = [2, 4]
  ∧ resample_audio ⟨44100, 2, true⟩ (fun _ _ _ => some [1]) [2, 4] =
      [(1 : ℚ)].map (fun q => wrapInt16 (truncToInt (q * 32768)))
  ∧ (∀ z ∈ resample_audio ⟨44100, 2, true⟩ (fun _ _ _ => some [1]) [2, 4],
      -32768 ≤ z ∧ z ≤ 32767)
  ∧ meanChunks 2 ([5, 7] ++ [9, 11]) =
      truncToInt ((([5, 7] : List ℤ).sum : ℚ) / (2 : ℚ)) :: meanChunks 2 [9, 11] :=
  resample_pipeline 44100 2 (fun _ _ _ => some [1]) [2, 4] [5, 7] [9, 11] [1]
    (by decide) (by decide) rfl rfl

/-- C5: when the rate converter fails (the oracle returns `none`,
modelling the caught exception), `resample_audio` neither raises nor
aborts: it returns the mono-downmixed but not rate-converted signal. -/
theorem resample_fallback (rate ch : ℕ) (lr : List ℚ → ℕ → ℕ → Option (List ℚ))
    (data : List ℤ)
    (hrate : rate ≠ RATE_TARGET)
    (hlr : lr ((if 1 < ch then meanChunks ch data else data).map fun a => (a : ℚ) / 32768)
        rate RATE_TARGET = none) :
    resample_audio ⟨rate, ch, true⟩ lr data = if 1 < ch then meanChunks ch data else data := by
  by_cases hch : 1 < ch
  · rw [if_pos hch] at hlr ⊢
    unfold resample_audio
    simp only [Bool.true_eq_false, if_false, hch, if_true, if_pos hrate, hlr]
  · rw [if_neg hch] at hlr ⊢
    unfold resample_audio
    simp only [Bool.true_eq_false, if_false, hch, if_pos hrate, hlr]

/-- C5 witness: a mono 8000 Hz device whose converter always fails. -/
theorem resample_fallback_witness :
    resample_audio ⟨8000, 1, true⟩ (fun _ _ _ => none) [3] =
      if 1 < 1 then meanChunks 1 [3] else [3] :=
  resample_fallback 8000 1 (fun _ _ _ => none) [3] (by decide) rfl

/-- C10: when resampling is required but the native rate is already 16000
Hz, `resample_audio` returns exactly the per-position channel average of
the frame and never consults the rate converter — the result does not
depend on the converter at all — and the output has one sample per frame
position. -/
theorem resample_rate_already_target (ch n : ℕ)
    (lr lr2 : List ℚ → ℕ → ℕ → Option (List ℚ)) (data : List ℤ)
    (hc : ch ≠ 0) (hlen : data.length = ch * n) :
    resample_audio ⟨16000, ch, true⟩ lr data = meanChunks ch data
  ∧ resample_audio ⟨16000, ch, true⟩ lr data = resample_audio ⟨16000, ch, true⟩ lr2 data
  ∧ (meanChunks ch data).length = n := by
  have key : ∀ g : List ℚ → ℕ → ℕ → Option (List ℚ),
      resample_audio ⟨16000, ch, true⟩ g data = meanChunks ch data := by
    intro g
    unfold resample_audio
    by_cases hch : 1 < ch
    · simp only [Bool.true_eq_false, if_false, hch, if_true, RATE_TARGET, ne_eq,
        not_true_eq_false, reduceIte]
    · have hch1 : ch = 1 := by omega
      rw [hch1]
      simp only [Bool.true_eq_false, if_false, RATE_TARGET, ne_eq, not_true_eq_false,
        reduceIte, meanChunks_one]
      simp
  exact ⟨key lr, (key lr).trans (key lr2).symm, meanChunks_length_mul ch hc n data hlen⟩

/-- C10 witness: a 2-channel device already at 16000 Hz, checked against
two different converters. -/
theorem resample_rate_already_target_witness :
    resample_audio ⟨16000, 2, true⟩ (fun _ _ _ => some [5]) [1, 3, 5, 7] = meanChunks 2 [1, 3, 5, 7]
  ∧ resample_audio ⟨16000, 2, true⟩ (fun _ _ _ => some [5]) [1, 3, 5, 7] =
      resample_audio ⟨16000, 2, true⟩ (fun _ _ _ => none) [1, 3, 5, 7]
  ∧ (meanChunks 2 [1, 3, 5, 7]).length = 2 :=
  resample_rate_already_target 2 2 (fun _ _ _ => some [5]) (fun _ _ _ => none) [1, 3, 5, 7]
    (by decide) rfl

/-! ## Theorems: RecognitionClient session -/

theorem receivedPrefix_cons_ne_nil (m : RespMsg) (rest : List RespMsg) :
    receivedPrefix (m :: rest) ≠ [] := by
  unfold receivedPrefix
  by_cases h1 : m.code ≠ 0
  · rw [if_pos h1]
    exact List.cons_ne_nil m []
  · rw [if_neg h1]
    by_cases h2 : m.status = 2
    · rw [if_pos h2]
      exact List.cons_ne_nil m []
    · rw [if_neg h2]
      exact List.cons_ne_nil m _

theorem receivedPrefix_err (m : RespMsg) (rest : List RespMsg) (hcode : m.code ≠ 0) :
    receivedPrefix (m :: rest) = [m] := by
  unfold receivedPrefix
  rw [if_pos hcode]

theorem receivedPrefix_final (m : RespMsg) (rest : List RespMsg)
    (hcode : ¬m.code ≠ 0) (hst : m.status = 2) :
    receivedPrefix (m :: rest) = [m] := by
  unfold receivedPrefix
  rw [if_neg hcode, if_pos hst]

theorem receivedPrefix_skip (m : RespMsg) (rest : List RespMsg)
    (hcode : ¬m.code ≠ 0) (hst : ¬m.status = 2) :
    receivedPrefix (m :: rest) = m :: receivedPrefix rest := by
  simp only [receivedPrefix]
  rw [if_neg hcode, if_neg hst]

theorem allWords_cons (m : RespMsg) (rest : List RespMsg) :
    allWords (m :: rest) = msgWords m ++ allWords rest := rfl

theorem allWords_single (m : RespMsg) : allWords [m] = msgWords m := by
  rw [allWords_cons]
  exact String.append_empty _

theorem recvLoop_finalOk (msgs : List RespMsg) :
    ∀ acc t, recvLoop acc msgs = some (.finalOk t) →
      t = acc ++ allWords (receivedPrefix msgs) := by
  induction msgs with
  | nil =>
    intro acc t h
    simp [recvLoop] at h
  | cons m rest ih =>
    intro acc t h
    unfold recvLoop at h
    by_cases hcode : m.code ≠ 0
    · rw [if_pos hcode] at h
      simp at h
    · rw [if_neg hcode] at h
      by_cases hst : m.status = 2
      · rw [if_pos hst] at h
        simp only [Option.some.injEq, RecvOutcome.finalOk.injEq] at h
        rw [receivedPrefix_final m rest hcode hst, allWords_single, ← h]
      · rw [if_neg hst] at h
        have ht := ih (acc ++ msgWords m) t h
        rw [ht, receivedPrefix_skip m rest hcode hst, allWords_cons, String.append_assoc]

theorem recvLoop_errorAbort (msgs : List RespMsg) :
    ∀ acc em t, recvLoop acc msgs = some (.errorAbort em t) →
      t = acc ++ allWords ((receivedPrefix msgs).dropLast) := by
  induction msgs with
  | nil =>
    intro acc em t h
    simp [recvLoop] at h
  | cons m rest ih =>
    intro acc em t h
    unfold recvLoop at h
    by_cases hcode : m.code ≠ 0
    · rw [if_pos hcode] at h
      simp only [Option.some.injEq, RecvOutcome.errorAbort.injEq] at h
      rw [receivedPrefix_err m rest hcode, List.dropLast_single]
      show t = acc ++ allWords []
      rw [show allWords [] = "" from rfl, String.append_empty, ← h.2]
    · rw [if_neg hcode] at h
      by_cases hst : m.status = 2
      · rw [if_pos hst] at h
        simp at h
      · rw [if_neg hst] at h
        have ht := ih (acc ++ msgWords m) em t h
        have hne : receivedPrefix rest ≠ [] := by
          cases rest with
          | nil => simp [recvLoop] at h
          | cons x xs => exact receivedPrefix_cons_ne_nil x xs
        rw [ht, receivedPrefix_skip m rest hcode hst, List.dropLast_cons_of_ne_nil hne,
          allWords_cons, String.append_assoc]

/-- C6 (amended): with valid credentials the client sends exactly the three
protocol frames in order — the start frame with the application id, the
business parameters `{domain "iat", language "zh_cn", accent "mandarin"}`
and status 0, one data frame with status 1 carrying the base64 of the
entire session audio, and an end frame with status 2 — then receives until
a message with status 2 or a non-zero code; on a status-2 finish the
transcript is the concatenation of every `w` word text across all received
messages, while on an error break the terminating error message's words
are excluded from it. -/
theorem session_protocol (a k s : Option String) (p : WsParam) (audio : List ℕ)
    (msgs : List RespMsg) (oc : RecvOutcome)
    (hp : create_ws_param a k s = some p)
    (hr : recvLoop "" msgs = some oc) :
    (process_audio a k s audio msgs).sent =
      [SentFrame.start p.APPID ⟨"iat", "zh_cn", "mandarin"⟩ 0,
       SentFrame.audioData 1 (b64encode audio),
       SentFrame.finishF 2]
  ∧ (match oc with
     | .finalOk t => t = allWords (receivedPrefix msgs)
     | .errorAbort _ t => t = allWords ((receivedPrefix msgs).dropLast)) := by
  constructor
  · unfold process_audio
    rw [hp, hr]
    cases oc <;> rfl
  · cases oc with
    | finalOk t =>
      show t = allWords (receivedPrefix msgs)
      exact (recvLoop_finalOk msgs "" t hr).trans (String.empty_append _)
    | errorAbort em t =>
      show t = allWords ((receivedPrefix msgs).dropLast)
      exact (recvLoop_errorAbort msgs "" em t hr).trans (String.empty_append _)

/-- C6 witness: one successful single-message session. -/
theorem session_protocol_witness :
    (process_audio (some "a") (some "k") (some "s") [] [⟨0, none, 2, [["前进"]]⟩]).sent =
      [SentFrame.start "a" ⟨"iat", "zh_cn", "mandarin"⟩ 0,
       SentFrame.audioData 1 (b64encode []),
       SentFrame.finishF 2]
  ∧ (match RecvOutcome.finalOk "前进" with
     | .finalOk t => t = allWords (receivedPrefix [⟨0, none, 2, [["前进"]]⟩])
     | .errorAbort _ t => t = allWords ((receivedPrefix [⟨0, none, 2, [["前进"]]⟩]).dropLast)) :=
  session_protocol (some "a") (some "k") (some "s") ⟨"a", "k", "s"⟩ [] _
    (.finalOk "前进") (by decide) (by decide)

/-- C6 counterexample: a session terminated by an error message that itself
carries word text.  That message is received, yet its words are not in the
transcript, so the transcript ("") differs from the concatenation of every
`w` field across all received messages ("前"). -/
theorem session_transcript_cex :
    recvLoop "" [⟨1, some "err", 0, [["前"]]⟩] = some (.errorAbort "err" "")
  ∧ allWords (receivedPrefix [⟨1, some "err", 0, [["前"]]⟩]) = "前"
  ∧ ("" : String) ≠ "前" :=
  ⟨by decide, by decide, by decide⟩

/-- C1 (amended): on a non-zero service error code the client stops the
receive loop and logs the service-provided message, the session is over
and the node is ready for the next toggle — but the partially assembled
transcript is still handed to the dispatcher, so a motion command is
published exactly when that partial transcript contains a trigger phrase;
an empty partial transcript publishes nothing. -/
theorem error_abort_dispatch (a k s : Option String) (p : WsParam) (audio : List ℕ)
    (msgs : List RespMsg) (em t : String)
    (hp : create_ws_param a k s = some p)
    (hr : recvLoop "" msgs = some (.errorAbort em t)) :
    (process_audio a k s audio msgs).recErrorLogged = some em
  ∧ (process_audio a k s audio msgs).published = handle_final_result t
  ∧ handle_final_result "" = []
  ∧ (process_audio a k s audio msgs).authFailed = false := by
  unfold process_audio
  rw [hp, hr]
  exact ⟨rfl, rfl, rfl, rfl⟩

/-- C1 witness: an error on the first message, with an empty partial
transcript. -/
theorem error_abort_dispatch_witness :
    (process_audio (some "a") (some "k") (some "s") [] [⟨1, some "e", 0, []⟩]).recErrorLogged =
      some "e"
  ∧ (process_audio (some "a") (some "k") (some "s") [] [⟨1, some "e", 0, []⟩]).published =
      handle_final_result ""
  ∧ handle_final_result "" = []
  ∧ (process_audio (some "a") (some "k") (some "s") [] [⟨1, some "e", 0, []⟩]).authFailed = false :=
  error_abort_dispatch (some "a") (some "k") (some "s") ⟨"a", "k", "s"⟩ []
    [⟨1, some "e", 0, []⟩] "e" "" (by decide) (by decide)

/-- C1 counterexample: the error code arrives after a successful partial
result containing "前进"; the claim says no motion command is dispatched
from the partial transcript, but the node logs the error and still
publishes the matched command. -/
theorem error_abort_dispatch_cex :
    (process_audio (some "a") (some "k") (some "s") []
        [⟨0, none, 0, [["前进"]]⟩, ⟨1, some "fail", 0, []⟩]).recErrorLogged = some "fail"
  ∧ (process_audio (some "a") (some "k") (some "s") []
        [⟨0, none, 0, [["前进"]]⟩, ⟨1, some "fail", 0, []⟩]).published ≠ [] :=
  ⟨by decide, by decide⟩

/-- C8: a missing (unset or empty) credential makes the recognition
attempt fail before any connection is attempted — no frame is sent,
nothing is published — and the toggle state machine is untouched and fully
operational for the next cycle. -/
theorem auth_missing_aborts (a k s : Option String) (audio : List ℕ) (msgs : List RespMsg)
    (h : pyTruthy a = false ∨ pyTruthy k = false ∨ pyTruthy s = false) :
    (process_audio a k s audio msgs).authFailed = true
  ∧ (process_audio a k s audio msgs).connAttempted = false
  ∧ (process_audio a k s audio msgs).sent = []
  ∧ (process_audio a k s audio msgs).published = []
  ∧ ∀ st : ControllerState, (on_space st).1.is_recording = !st.is_recording := by
  have hnone : create_ws_param a k s = none := by
    unfold create_ws_param
    rcases h with h | h | h <;> simp [h]
  unfold process_audio
  rw [hnone]
  refine ⟨rfl, rfl, rfl, rfl, ?_⟩
  intro st
  rcases st with ⟨r, b⟩
  cases r
  · rfl
  · by_cases hb : b ≠ [] <;> simp [on_space, hb]

/-- C8 witness: the application id is unset. -/
theorem auth_missing_aborts_witness :
    (process_audio none (some "k") (some "s") [] []).authFailed = true
  ∧ (process_audio none (some "k") (some "s") [] []).connAttempted = false
  ∧ (process_audio none (some "k") (some "s") [] []).sent = []
  ∧ (process_audio none (some "k") (some "s") [] []).published = []
  ∧ ∀ st : ControllerState, (on_space st).1.is_recording = !st.is_recording :=
  auth_missing_aborts none (some "k") (some "s") [] [] (Or.inl rfl)

/-! ## Theorems: RecognitionClient signed URL -/

theorem toNat_ofNat_valid (n : ℕ) (h : n < 55296) : (Char.ofNat n).toNat = n := by
  rw [Char.ofNat, dif_pos (Or.inl h)]
  rfl

theorem charOfNat_safe_ne (b : ℕ) (hs : safeByte b = true) :
    Char.ofNat b ≠ '&' ∧ Char.ofNat b ≠ '=' := by
  unfold safeByte at hs
  simp only [Bool.or_eq_true, Bool.and_eq_true, decide_eq_true_eq, beq_iff_eq] at hs
  have hb : b < 55296 ∧ b ≠ 38 ∧ b ≠ 61 := by omega
  constructor
  · intro heq
    have h1 := congrArg Char.toNat heq
    rw [toNat_ofNat_valid b hb.1] at h1
    exact hb.2.1 (h1.trans rfl)
  · intro heq
    have h1 := congrArg Char.toNat heq
    rw [toNat_ofNat_valid b hb.1] at h1
    exact hb.2.2 (h1.trans rfl)

theorem hexUpper_ne (m : ℕ) : hexUpper m ≠ '&' ∧ hexUpper m ≠ '=' := by
  unfold hexUpper
  split <;> exact ⟨by decide, by decide⟩

theorem quoteByte_ne (b : ℕ) : ∀ c ∈ quoteByte b, c ≠ '&' ∧ c ≠ '=' := by
  intro c hc
  unfold quoteByte at hc
  by_cases hs : safeByte b = true
  · rw [if_pos hs, List.mem_singleton] at hc
    rw [hc]
    exact charOfNat_safe_ne b hs
  · rw [if_neg hs] at hc
    by_cases h32 : (b == 32) = true
    · rw [if_pos h32, List.mem_singleton] at hc
      rw [hc]
      exact ⟨by decide, by decide⟩
    · rw [if_neg h32] at hc
      simp only [List.mem_cons, List.mem_singleton, List.not_mem_nil, or_false] at hc
      rcases hc with hc | hc | hc
      · rw [hc]
        exact ⟨by decide, by decide⟩
      · rw [hc]
        exact hexUpper_ne _
      · rw [hc]
        exact hexUpper_ne _

theorem quotePlus_ne (v : String) : ∀ c ∈ (quotePlus v).data, c ≠ '&' ∧ c ≠ '=' := by
  intro c hc
  unfold quotePlus at hc
  rw [show (String.mk ((utf8Bytes v).map quoteByte).flatten).data =
      ((utf8Bytes v).map quoteByte).flatten from rfl, List.mem_flatten] at hc
  obtain ⟨l, hl, hcl⟩ := hc
  rw [List.mem_map] at hl
  obtain ⟨b, _, rfl⟩ := hl
  exact quoteByte_ne b c hcl

theorem splitOnCh_no_sep (c : Char) (l : List Char) (h : ∀ x ∈ l, x ≠ c) :
    splitOnCh c l = [l] := by
  induction l with
  | nil => rfl
  | cons x xs ih =>
    have hx : ¬((x == c) = true) := by
      simp only [beq_iff_eq]
      exact h x (List.mem_cons_self x xs)
    simp only [splitOnCh]
    rw [if_neg hx, ih (fun y hy => h y (List.mem_cons_of_mem x hy))]

theorem splitOnCh_sep (c : Char) (l₁ l₂ : List Char) (h : ∀ x ∈ l₁, x ≠ c) :
    splitOnCh c (l₁ ++ c :: l₂) = l₁ :: splitOnCh c l₂ := by
  induction l₁ with
  | nil =>
    simp only [List.nil_append, splitOnCh]
    rw [if_pos (by simp : (c == c) = true)]
  | cons x xs ih =>
    have hx : ¬((x == c) = true) := by
      simp only [beq_iff_eq]
      exact h x (List.mem_cons_self x xs)
    have hih := ih (fun y hy => h y (List.mem_cons_of_mem x hy))
    have hih2 : splitOnCh c (xs.append (c :: l₂)) = xs :: splitOnCh c l₂ := hih
    simp only [List.cons_append, splitOnCh, if_neg hx, hih2]

theorem takeWhile_append_stop (p : Char → Bool) (l₁ l₂ : List Char) (x0 : Char)
    (h : ∀ x ∈ l₁, p x = true) (hx : p x0 = false) :
    (l₁ ++ x0 :: l₂).takeWhile p = l₁ := by
  induction l₁ with
  | nil =>
    rw [List.nil_append]
    exact List.takeWhile_cons_of_neg (by simp [hx])
  | cons x xs ih =>
    rw [List.cons_append, List.takeWhile_cons_of_pos (h x (List.mem_cons_self x xs)),
      ih (fun y hy => h y (List.mem_cons_of_mem x hy))]

theorem dropWhile_append_stop (p : Char → Bool) (l₁ l₂ : List Char) (x0 : Char)
    (h : ∀ x ∈ l₁, p x = true) (hx : p x0 = false) :
    (l₁ ++ x0 :: l₂).dropWhile p = x0 :: l₂ := by
  induction l₁ with
  | nil =>
    rw [List.nil_append]
    exact List.dropWhile_cons_of_neg (by simp [hx])
  | cons x xs ih =>
    rw [List.cons_append, List.dropWhile_cons_of_pos (h x (List.mem_cons_self x xs)),
      ih (fun y hy => h y (List.mem_cons_of_mem x hy))]

theorem dropWhile_append_pass (p : Char → Bool) (l₁ l₂ : List Char)
    (h : ∀ x ∈ l₁, p x = true) :
    (l₁ ++ l₂).dropWhile p = l₂.dropWhile p := by
  induction l₁ with
  | nil => rw [List.nil_append]
  | cons x xs ih =>
    rw [List.cons_append, List.dropWhile_cons_of_pos (h x (List.mem_cons_self x xs)),
      ih (fun y hy => h y (List.mem_cons_of_mem x hy))]

theorem queryPairs_urlencode3 (k1 v1 k2 v2 k3 v3 : String) :
    queryPairs ("wss://ws-api.xfyun.cn/v2/iat" ++ "?" ++ urlencodeQ [(k1, v1), (k2, v2), (k3, v3)]) =
      [((quotePlus k1).data, (quotePlus v1).data),
       ((quotePlus k2).data, (quotePlus v2).data),
       ((quotePlus k3).data, (quotePlus v3).data)] := by
  have hQdata : (urlencodeQ [(k1, v1), (k2, v2), (k3, v3)]).data =
      ((quotePlus k1).data ++ '=' :: (quotePlus v1).data) ++ '&' ::
        (((quotePlus k2).data ++ '=' :: (quotePlus v2).data) ++ '&' ::
          ((quotePlus k3).data ++ '=' :: (quotePlus v3).data)) := by
    simp only [urlencodeQ, String.data_append,
      show ("=" : String).data = ['='] from rfl,
      show ("&" : String).data = ['&'] from rfl,
      List.append_assoc, List.singleton_append, List.cons_append, List.nil_append]
  have hquery : queryOf ("wss://ws-api.xfyun.cn/v2/iat" ++ "?" ++
      urlencodeQ [(k1, v1), (k2, v2), (k3, v3)]) =
      (urlencodeQ [(k1, v1), (k2, v2), (k3, v3)]).data := by
    unfold queryOf
    rw [String.data_append, String.data_append,
      show ("?" : String).data = ['?'] from rfl,
      List.append_assoc, List.singleton_append,
      dropWhile_append_pass _ _ _ (by decide),
      List.dropWhile_cons_of_neg (by simp)]
    rfl
  have hgrp : ∀ a b : String, ∀ x ∈ (quotePlus a).data ++ '=' :: (quotePlus b).data, x ≠ '&' := by
    intro a b x hx
    rcases List.mem_append.mp hx with hh | hh
    · exact (quotePlus_ne a x hh).1
    · rcases List.mem_cons.mp hh with rfl | hh
      · decide
      · exact (quotePlus_ne b x hh).1
  have htake : ∀ a b : String,
      ((quotePlus a).data ++ '=' :: (quotePlus b).data).takeWhile (· ≠ '=') =
        (quotePlus a).data := by
    intro a b
    exact takeWhile_append_stop _ _ _ _
      (fun x hx => decide_eq_true (quotePlus_ne a x hx).2) (by decide)
  have hdrop : ∀ a b : String,
      (((quotePlus a).data ++ '=' :: (quotePlus b).data).dropWhile (· ≠ '=')).drop 1 =
        (quotePlus b).data := by
    intro a b
    rw [dropWhile_append_stop _ _ _ _
      (fun x hx => decide_eq_true (quotePlus_ne a x hx).2) (by decide)]
    rfl
  unfold queryPairs
  rw [hquery, hQdata,
    splitOnCh_sep '&' _ _ (hgrp k1 v1),
    splitOnCh_sep '&' _ _ (hgrp k2 v2),
    splitOnCh_no_sep '&' _ (hgrp k3 v3),
    List.map_cons, List.map_cons, List.map_cons, List.map_nil]
  rw [htake k1 v1, hdrop k1 v1, htake k2 v2, hdrop k2 v2, htake k3 v3, hdrop k3 v3]

theorem mkData (s : String) : String.mk s.data = s := rfl

/-- C7: the signed connection URL is a pure, deterministic function of the
credentials and the timestamp — the embedding is a function, so two
invocations with identical inputs are literally the same value — it equals
the spec-side construction whose signature is HMAC-SHA256 keyed by the API
secret over the canonical `host/date/request-line` string and then
base64-encoded into the authorization value, and its query string carries
exactly the parameters `authorization`, `date` and `host`, in that order,
with the percent-encoded date and host values. -/
theorem signed_url_pure (p : WsParam) (formatDate : ℕ → String) (now : ℕ) :
    create_url p formatDate now = create_url p formatDate now
  ∧ create_url p formatDate now = specSignedUrl p.APIKey p.APISecret (formatDate now)
  ∧ queryKeysOf (create_url p formatDate now) = ["authorization", "date", "host"]
  ∧ queryValsOf (create_url p formatDate now) =
      [quotePlus (b64encode (utf8Bytes (authOriginOf p.APIKey
          (signatureOf p.APISecret (formatDate now))))),
       quotePlus (formatDate now), quotePlus "ws-api.xfyun.cn"] := by
  have hurl : create_url p formatDate now =
      specSignedUrl p.APIKey p.APISecret (formatDate now) := rfl
  have hpairs := queryPairs_urlencode3 "authorization"
    (b64encode (utf8Bytes (authOriginOf p.APIKey (signatureOf p.APISecret (formatDate now)))))
    "date" (formatDate now) "host" "ws-api.xfyun.cn"
  refine ⟨rfl, hurl, ?_, ?_⟩
  · rw [hurl]
    unfold queryKeysOf
    unfold specSignedUrl
    rw [hpairs, List.map_cons, List.map_cons, List.map_cons, List.map_nil]
    rw [mkData, mkData, mkData]
    decide
  · rw [hurl]
    unfold queryValsOf
    unfold specSignedUrl
    rw [hpairs, List.map_cons, List.map_cons, List.map_cons, List.map_nil]

end VoiceControl
